import Mathlib

/-! # Verification of the goose-release-agent webhook ingestion core

Shallow embedding of the webhook ingestion and changelog-assembly pipeline:
the database schema (src/db/schema.ts), the webhook handler
(src/services/webhook-handler.ts), the signature verifier
(GitHubService.verifyWebhookSignature in src/services/github.ts) and the
changelog generator (src/services/changelog-generator.ts).

The D1/SQLite store is modelled as lists of rows in insertion order (rows are
only ever appended by the core, so list order coincides with rowid order, which
is the order an unordered `SELECT ... LIMIT 1` scans).  Fresh primary keys are
assigned as max existing id + 1, mirroring SQLite rowid assignment for tables
that never see deletes.  `new Date().toISOString()` is modelled by threading an
explicit `now : String` through every operation; `new Date(x).toISOString()`
applied to an already ISO-formatted webhook timestamp is modelled as the
identity.  External collaborators (the GitHub API used for backfill, the Web
Crypto HMAC primitive, the Anthropic generative backend) are parameters.
-/

namespace GooseRelease

/-! ### JavaScript string/truthiness helpers -/

/-- Contiguous-sublist test: does `needle` occur inside `hay`? -/
def listInfix (needle : List Char) : List Char → Bool
  | [] => needle.isEmpty
  | c :: rest => needle.isPrefixOf (c :: rest) || listInfix needle rest

/-- JS `String.prototype.includes`: contiguous substring test. -/
def strContains (hay needle : String) : Bool :=
  listInfix needle.data hay.data

/-- JS `String.prototype.startsWith`. -/
def jsStartsWith (s pre : String) : Bool :=
  pre.data.isPrefixOf s.data

/-- JS `String.prototype.toLowerCase` on the ASCII range (labels are ASCII),
mapped over the character list so that it reduces in the kernel. -/
def strToLower (s : String) : String :=
  String.mk (s.data.map Char.toLower)

/-- JS falsiness of an optional string value: `null`/`undefined` and `""` are falsy. -/
def strFalsy : Option String → Bool
  | none => true
  | some s => decide (s = "")

/-! ### Database rows (src/db/schema.ts) -/

/-- Row of the `releases` table (schema.ts lines 17-28). -/
structure ReleaseRow where
  id : Nat
  version : String
  name : Option String
  repository : String
  releaseDate : String
  description : Option String
  generatedNotes : Option String
  publishedStatus : String
  createdAt : String
  updatedAt : String
deriving DecidableEq, Repr

/-- Row of the `pull_requests` table (schema.ts lines 33-46).  The `labels`
column holds a JSON-serialized string array; it is modelled structurally as the
list it serializes. -/
structure PullRequestRow where
  id : Nat
  prNumber : Nat
  releaseId : Nat
  title : String
  author : String
  description : Option String
  url : String
  mergedAt : String
  labels : List String
  categoryId : Option Nat
  createdAt : String
  updatedAt : String
deriving DecidableEq, Repr

/-- Row of the `commits` table (schema.ts lines 51-62). -/
structure CommitRow where
  id : Nat
  hash : String
  releaseId : Nat
  pullRequestId : Option Nat
  message : String
  author : String
  authorEmail : Option String
  date : String
  createdAt : String
  updatedAt : String
deriving DecidableEq, Repr

/-- Row of the `categories` table (schema.ts lines 67-74). -/
structure CategoryRow where
  id : Nat
  name : String
  description : Option String
  displayOrder : Nat
deriving DecidableEq, Repr

/-- The persistent store: the four tables, each as a list of rows in insertion
(= rowid) order.  The core only appends and updates in place, never deletes. -/
structure Store where
  releases : List ReleaseRow
  pullRequests : List PullRequestRow
  commits : List CommitRow
  categories : List CategoryRow
deriving DecidableEq, Repr

/-- Largest id among a list of ids (0 when empty). -/
def maxId (ids : List Nat) : Nat := ids.foldl max 0

/-- Fresh primary key for a `releases` insert (SQLite rowid: max + 1). -/
def freshReleaseId (s : Store) : Nat := maxId (s.releases.map (fun r => r.id)) + 1

/-- Fresh primary key for a `pull_requests` insert. -/
def freshPrId (s : Store) : Nat := maxId (s.pullRequests.map (fun r => r.id)) + 1

/-- Fresh primary key for a `commits` insert. -/
def freshCommitId (s : Store) : Nat := maxId (s.commits.map (fun r => r.id)) + 1

/-! ### Webhook payloads (src/services/github.ts interfaces) -/

/-- `GitHubRepository` fields used by the handler. -/
structure RepositoryPayload where
  full_name : String
  default_branch : String
deriving DecidableEq, Repr

/-- `GitHubRelease` fields used by the handler. -/
structure ReleaseInfoPayload where
  tag_name : String
  name : String
  body : String
  published_at : String
deriving DecidableEq, Repr

/-- `GitHubReleaseWebhookPayload`. -/
structure ReleaseEvent where
  action : String
  release : ReleaseInfoPayload
  repository : RepositoryPayload
deriving DecidableEq, Repr

/-- `GitHubPullRequest` fields consumed by `storePullRequest`: number, title,
optional body, URL, nullable merge timestamp, author login and optional label
list (`pr.labels?.map(l => l.name)`). -/
structure PRPayload where
  number : Nat
  title : String
  body : Option String
  html_url : String
  merged_at : Option String
  user_login : String
  labels : Option (List String)
deriving DecidableEq, Repr

/-- `GitHubPullRequestWebhookPayload`. -/
structure PREvent where
  action : String
  pull_request : PRPayload
  repository : RepositoryPayload
deriving DecidableEq, Repr

/-- Author object of a push-payload commit. -/
structure PushCommitAuthor where
  name : String
  email : String
deriving DecidableEq, Repr

/-- One entry of `GitHubPushWebhookPayload.commits`.  The TS interface declares
`id`/`message`/`author` non-optional, but `processPushEvent` defensively
guards against missing or empty values, so they are modelled as options. -/
structure PushCommit where
  id : Option String
  message : Option String
  author : Option PushCommitAuthor
  timestamp : String
deriving DecidableEq, Repr

/-- `GitHubPushWebhookPayload`. -/
structure PushEvent where
  ref : String
  repository : RepositoryPayload
  commits : List PushCommit
deriving DecidableEq, Repr

/-- A commit fetched from the GitHub API for a pull request during backfill
(`GitHubCommit` fields used by `fetchAndStoreCommitsForPR`). -/
structure FetchedCommit where
  sha : String
  message : String
  author_name : String
  author_email : String
  author_date : String
deriving DecidableEq, Repr

/-- One backfill unit: a merged PR fetched from the GitHub API together with
the commits fetched for it (`fetchAndStorePRsForRelease` body). -/
structure BackfillEntry where
  pr : PRPayload
  commits : List FetchedCommit
deriving DecidableEq, Repr

/-! ### Categorizer -/

/-- Pure label categorizer as specified in section 4.4 of the spec: lower-case
all labels, then test substring membership in a fixed priority order, first
match wins, no match is `none`.  Written from the specification wording; the
theorem for C4 proves it coincides with the source's inline chain
`computeCategoryId` below (modulo the category-name-to-id lookup). -/
def categorize (labels : List String) : Option String :=
  let ls := labels.map strToLower
  if ls.any (fun l => strContains l ("feat") || strContains l ("feature")) then some ("Features")
  else if ls.any (fun l => strContains l ("fix") || strContains l ("bug")) then some ("Bug Fixes")
  else if ls.any (fun l => strContains l ("improve") || strContains l ("enhancement")) then some ("Improvements")
  else if ls.any (fun l => strContains l ("doc")) then some ("Documentation")
  else if ls.any (fun l => strContains l ("dep")) then some ("Dependencies")
  else if ls.any (fun l => strContains l ("break")) then some ("Breaking Changes")
  else none

/-- The category computation inlined in `WebhookHandler.storePullRequest`
(webhook-handler.ts lines 416-443): the same label-matching chain, but each
branch resolves the category name against the `categories` table and yields its
id, or `null` when the row is absent. -/
def computeCategoryId (categories : List CategoryRow) (labels : List String) : Option Nat :=
  let ls := labels.map strToLower
  if ls.any (fun l => strContains l ("feat") || strContains l ("feature")) then
    (categories.find? (fun c => decide (c.name = "Features"))).map (fun c => c.id)
  else if ls.any (fun l => strContains l ("fix") || strContains l ("bug")) then
    (categories.find? (fun c => decide (c.name = "Bug Fixes"))).map (fun c => c.id)
  else if ls.any (fun l => strContains l ("improve") || strContains l ("enhancement")) then
    (categories.find? (fun c => decide (c.name = "Improvements"))).map (fun c => c.id)
  else if ls.any (fun l => strContains l ("doc")) then
    (categories.find? (fun c => decide (c.name = "Documentation"))).map (fun c => c.id)
  else if ls.any (fun l => strContains l ("dep")) then
    (categories.find? (fun c => decide (c.name = "Dependencies"))).map (fun c => c.id)
  else if ls.any (fun l => strContains l ("break")) then
    (categories.find? (fun c => decide (c.name = "Breaking Changes"))).map (fun c => c.id)
  else none

/-! ### WebhookHandler.storePullRequest (webhook-handler.ts lines 387-461) -/

/-- The dedupe predicate of the PR-insert procedure: same `(pr_number,
release_id)` pair. -/
def prDedupe (releaseId number : Nat) (r : PullRequestRow) : Bool :=
  decide (r.prNumber = number ∧ r.releaseId = releaseId)

/-- The row inserted by `storePullRequest` (lines 446-458).  `pr.merged_at ||
new Date().toISOString()` substitutes `now` for a null or empty merge
timestamp. -/
def prRowOf (s : Store) (releaseId : Nat) (pr : PRPayload) (now : String) : PullRequestRow :=
  { id := freshPrId s
    prNumber := pr.number
    releaseId := releaseId
    title := pr.title
    author := pr.user_login
    description := pr.body
    url := pr.html_url
    mergedAt := match pr.merged_at with
      | some m => if m = "" then now else m
      | none => now
    labels := pr.labels.getD []
    categoryId := computeCategoryId s.categories (pr.labels.getD [])
    createdAt := now
    updatedAt := now }

/-- `WebhookHandler.storePullRequest`: skip silently if the `(pr_number,
release_id)` pair already exists, returning the existing row id; otherwise
extract labels, compute the category and insert.  Returns the updated store and
the row id. -/
def storePullRequest (s : Store) (releaseId : Nat) (pr : PRPayload) (now : String) :
    Store × Nat :=
  match s.pullRequests.find? (prDedupe releaseId pr.number) with
  | some existing => (s, existing.id)
  | none =>
    let row := prRowOf s releaseId pr now
    ({ s with pullRequests := s.pullRequests ++ [row] }, row.id)

/-! ### Backfill (webhook-handler.ts lines 358-382 and 466-515) -/

/-- One commit insert of `fetchAndStoreCommitsForPR` (lines 490-512): skip if
the hash already exists, else insert the commit linked to the PR. -/
def insertPRCommit (releaseId pullRequestId : Nat) (now : String) (s : Store)
    (c : FetchedCommit) : Store :=
  if (s.commits.find? (fun r => decide (r.hash = c.sha))).isSome then s
  else
    { s with commits := s.commits ++ [{
        id := freshCommitId s
        hash := c.sha
        releaseId := releaseId
        pullRequestId := some pullRequestId
        message := c.message
        author := c.author_name
        authorEmail := some c.author_email
        date := c.author_date
        createdAt := now
        updatedAt := now }] }

/-- `WebhookHandler.fetchAndStoreCommitsForPR`: resolve the PR's row id by
`(pr_number, release_id)` (returning the store unchanged when absent), then
insert each fetched commit with hash dedupe. -/
def fetchAndStoreCommitsForPR (s : Store) (releaseId : Nat) (prNumber : Nat)
    (commits : List FetchedCommit) (now : String) : Store :=
  match s.pullRequests.find? (prDedupe releaseId prNumber) with
  | none => s
  | some prRow => commits.foldl (insertPRCommit releaseId prRow.id now) s

/-- `WebhookHandler.fetchAndStorePRsForRelease`: persist each fetched merged PR
through the PR-insert procedure, then fetch and store its commits.  The list of
PRs (with their commits) fetched from the GitHub API collaborator is a
parameter. -/
def fetchAndStorePRsForRelease (s : Store) (releaseId : Nat)
    (fetched : List BackfillEntry) (now : String) : Store :=
  fetched.foldl (fun acc e =>
    fetchAndStoreCommitsForPR (storePullRequest acc releaseId e.pr now).1
      releaseId e.pr.number e.commits now) s

/-! ### WebhookHandler.processReleaseEvent (lines 43-97) -/

/-- The release-exists predicate: same `(repository, version)` pair. -/
def releaseDedupe (repository version : String) (r : ReleaseRow) : Bool :=
  decide (r.repository = repository ∧ r.version = version)

/-- The in-place update applied to the existing release row (lines 67-74). -/
def applyReleaseUpdate (p : ReleaseEvent) (now : String) (rid : Nat) (r : ReleaseRow) :
    ReleaseRow :=
  if r.id = rid then
    { r with name := some p.release.name, description := some p.release.body,
             publishedStatus := "published", updatedAt := now }
  else r

/-- The release row inserted on first sighting (lines 79-88).
`new Date(release.published_at).toISOString()` on the already ISO-formatted
webhook timestamp is modelled as the identity. -/
def releaseRowOf (s : Store) (p : ReleaseEvent) (now : String) : ReleaseRow :=
  { id := freshReleaseId s
    version := p.release.tag_name
    name := some p.release.name
    repository := p.repository.full_name
    releaseDate := p.release.published_at
    description := some p.release.body
    generatedNotes := none
    publishedStatus := "published"
    createdAt := now
    updatedAt := now }

/-- Result of `processReleaseEvent`. -/
structure ReleaseResult where
  status : String
  releaseId : Option Nat
deriving DecidableEq, Repr

/-- `WebhookHandler.processReleaseEvent`: ignore actions other than
`published`/`created`; update the existing `(repository, version)` release in
place, or insert it and run the backfill. -/
def processReleaseEvent (s : Store) (p : ReleaseEvent) (fetched : List BackfillEntry)
    (now : String) : Store × ReleaseResult :=
  if p.action ≠ "published" ∧ p.action ≠ "created" then (s, ⟨"ignored", none⟩)
  else
    match s.releases.find? (releaseDedupe p.repository.full_name p.release.tag_name) with
    | some existing =>
      ({ s with releases := s.releases.map (applyReleaseUpdate p now existing.id) },
        ⟨"updated", some existing.id⟩)
    | none =>
      let row := releaseRowOf s p now
      let s1 := { s with releases := s.releases ++ [row] }
      (fetchAndStorePRsForRelease s1 row.id fetched now, ⟨"created", some row.id⟩)

/-! ### WebhookHandler.processPullRequestEvent (lines 103-136) -/

/-- The draft release auto-created for an orphan merged PR (lines 119-126). -/
def draftReleaseRow (s : Store) (repository : String) (now : String) : ReleaseRow :=
  { id := freshReleaseId s
    version := "unreleased"
    name := none
    repository := repository
    releaseDate := now
    description := none
    generatedNotes := none
    publishedStatus := "draft"
    createdAt := now
    updatedAt := now }

/-- Result of `processPullRequestEvent`. -/
structure PRResult where
  status : String
  prId : Option Nat
deriving DecidableEq, Repr

/-- `WebhookHandler.processPullRequestEvent`: keep only `closed` actions with a
truthy `merged_at`; attach the PR to the first release row found for the
repository (the query has no ORDER BY), auto-creating a draft release with
version `"unreleased"` when none exists. -/
def processPullRequestEvent (s : Store) (p : PREvent) (now : String) : Store × PRResult :=
  if p.action ≠ "closed" ∨ strFalsy p.pull_request.merged_at then (s, ⟨"ignored", none⟩)
  else
    match s.releases.find? (fun r => decide (r.repository = p.repository.full_name)) with
    | none =>
      let row := draftReleaseRow s p.repository.full_name now
      let s1 := { s with releases := s.releases ++ [row] }
      let res := storePullRequest s1 row.id p.pull_request now
      (res.1, ⟨"draft-release-created", some res.2⟩)
    | some r =>
      let res := storePullRequest s r.id p.pull_request now
      (res.1, ⟨"added", some res.2⟩)

/-! ### WebhookHandler.processPushEvent (lines 142-210) -/

/-- First `#<digits>` reference in a commit message, as matched by the regex
`/#(\d+)/`: the first `#` that is immediately followed by at least one digit,
capturing the maximal digit run. -/
def findPRNumAux : List Char → Option (List Char)
  | [] => none
  | c :: rest =>
    if c = '#' then
      let ds := rest.takeWhile Char.isDigit
      if ds.isEmpty then findPRNumAux rest else some ds
    else findPRNumAux rest

/-- `parseInt` of a digit run. -/
def digitsToNat (ds : List Char) : Nat :=
  ds.foldl (fun n c => 10 * n + (c.toNat - 48)) 0

/-- `commit.message.match(/#(\d+)/)` followed by `parseInt`. -/
def findPRNumber (msg : String) : Option Nat :=
  (findPRNumAux msg.data).map digitsToNat

/-- The guard `if (!commit.id || !commit.message || !commit.author) continue`
(line 166): a commit entry is processed only when id, message and author are
all truthy. -/
def commitValid (c : PushCommit) : Bool :=
  !(strFalsy c.id || strFalsy c.message || c.author.isNone)

/-- The optional PR link resolved for a push commit (lines 176-192): the first
`#<digits>` reference of the message, looked up as a PR number within the
current release; `null` when the message has no reference or no such PR row
exists. -/
def resolvePRLink (s : Store) (releaseId : Nat) (msg : String) : Option Nat :=
  match findPRNumber msg with
  | none => none
  | some n =>
    match s.pullRequests.find? (prDedupe releaseId n) with
    | some prRow => some prRow.id
    | none => none

/-- The commit row inserted by `processPushEvent` (lines 195-204). -/
def pushCommitRowOf (s : Store) (releaseId : Nat) (c : PushCommit) (now : String) :
    CommitRow :=
  { id := freshCommitId s
    hash := c.id.getD ("")
    releaseId := releaseId
    pullRequestId := resolvePRLink s releaseId (c.message.getD (""))
    message := c.message.getD ("")
    author := (c.author.getD ⟨"", ""⟩).name
    authorEmail := some (c.author.getD ⟨"", ""⟩).email
    date := c.timestamp
    createdAt := now
    updatedAt := now }

/-- Processing of a single push commit (lines 164-207): skip invalid entries,
skip existing hashes, resolve the optional PR link from the message within the
current release, insert and count. -/
def processOneCommit (releaseId : Nat) (now : String) (acc : Store × Nat)
    (c : PushCommit) : Store × Nat :=
  if !commitValid c then acc
  else
    let s := acc.1
    if (s.commits.find? (fun r => decide (r.hash = c.id.getD ("")))).isSome then acc
    else
      ({ s with commits := s.commits ++ [pushCommitRowOf s releaseId c now] }, acc.2 + 1)

/-- Result of `processPushEvent`. -/
structure PushResult where
  status : String
  count : Nat
deriving DecidableEq, Repr

/-- `WebhookHandler.processPushEvent`: the branch filter is
`ref.includes("refs/heads/" + default_branch)` — a substring test, not an
equality; then process each commit against the first release row found for the
repository. -/
def processPushEvent (s : Store) (p : PushEvent) (now : String) : Store × PushResult :=
  if !(strContains p.ref ("refs/heads/" ++ p.repository.default_branch)) then
    (s, ⟨"ignored", 0⟩)
  else
    match s.releases.find? (fun r => decide (r.repository = p.repository.full_name)) with
    | none => (s, ⟨"no-release", 0⟩)
    | some r =>
      let res := p.commits.foldl (processOneCommit r.id now) (s, 0)
      (res.1, ⟨"processed", res.2⟩)

/-! ### GitHubService.verifyWebhookSignature (github.ts lines 138-163)

The Web Crypto HMAC-SHA256 primitive (`crypto.subtle.sign`) is a platform
collaborator; it is a parameter `hmac : String → String → List Nat` mapping
secret and payload to the digest bytes (each < 256).  The repository code
around it — the truthiness guards, the `sha256=` prefix check, the lowercase
hex encoding and the comparison — is embedded faithfully. -/

/-- One hex digit as produced by `Number.prototype.toString(16)`: lowercase. -/
def hexDigit (n : Nat) : Char :=
  if n < 10 then Char.ofNat (48 + n) else Char.ofNat (87 + n)

/-- `b.toString(16).padStart(2, "0")` for a byte `b < 256`. -/
def byteToHex (b : Nat) : String :=
  String.mk [hexDigit (b / 16 % 16), hexDigit (b % 16)]

/-- `Array.from(bytes).map(b => b.toString(16).padStart(2, "0")).join("")`. -/
def bytesToHex (bs : List Nat) : String :=
  String.join (bs.map byteToHex)

/-- `GitHubService.verifyWebhookSignature`: false on a falsy signature or
secret, false without the `sha256=` prefix, else compare the header signature
against `sha256=` + hex(HMAC-SHA256(secret, payload)). -/
def verifyWebhookSignature (hmac : String → String → List Nat)
    (webhookSecret payload signature : String) : Bool :=
  if signature = "" ∨ webhookSecret = "" then false
  else if !(jsStartsWith signature ("sha256=")) then false
  else
    let signatureHex := bytesToHex (hmac webhookSecret payload)
    let expectedSignature := "sha256=" ++ signatureHex
    decide (expectedSignature = signature)

/-! ### ChangelogGenerator (src/services/changelog-generator.ts)

Application-level types from src/types.ts, as consumed by the generator. -/

/-- `Release` (types.ts), fields read by the generator. -/
structure GenRelease where
  version : String
  name : Option String
  repository : String
  releaseDate : String
  description : Option String
deriving DecidableEq, Repr

/-- `PullRequest` (types.ts), fields read by the generator. -/
structure GenPR where
  prNumber : Nat
  title : String
  author : String
  url : String
  categoryId : Option Nat
  labels : Option (List String)
deriving DecidableEq, Repr

/-- `Commit` (types.ts), fields read by the generator. -/
structure GenCommit where
  hash : String
  message : String
  author : String
deriving DecidableEq, Repr

/-- `Category` (types.ts): `id` is optional. -/
structure GenCategory where
  id : Option Nat
  name : String
deriving DecidableEq, Repr

/-- One item of a rendered changelog category. -/
structure NotesItem where
  title : String
  prNumber : Nat
  url : String
  author : String
deriving DecidableEq, Repr

/-- One rendered changelog category: `{ title, items }`. -/
structure NotesCategory where
  title : String
  items : List NotesItem
deriving DecidableEq, Repr

/-- The requested output format. -/
inductive Format where
  | markdown
  | json
  | html
deriving DecidableEq, Repr

/-- `ChangelogOptions`. -/
structure GenOptions where
  format : Format
  style : Option String
  includeCommits : Option Bool
  customPrompt : Option String
deriving DecidableEq, Repr

/-- A JS plain object used as a string-keyed map, in key insertion order. -/
def recGet {α : Type} (m : List (String × α)) (k : String) : Option α :=
  (m.find? (fun e => decide (e.1 = k))).map (fun e => e.2)

/-- Assignment `m[k] = v` on a JS object: overwrite in place or append. -/
def recSet {α : Type} (m : List (String × α)) (k : String) (v : α) :
    List (String × α) :=
  if m.any (fun e => decide (e.1 = k)) then
    m.map (fun e => if e.1 = k then (e.1, v) else e)
  else m ++ [(k, v)]

/-- The category name a PR resolves to in `generateMockResponse`: a truthy
`categoryId` (nonzero, non-null) whose id is found among the categories gives
that category's name, anything else falls to the caller's default. -/
def prCategoryName (cats : List GenCategory) (pr : GenPR) : Option String :=
  match pr.categoryId with
  | some cid =>
    if cid = 0 then none
    else (cats.find? (fun c => decide (c.id = some cid))).map (fun c => c.name)
  | none => none

/-- The structured content of the JSON mock response (changelog-generator.ts
lines 103-135): its `categories` object, built per PR with default bucket
`"Other Changes"`.  The JSON string returned by the source is the
serialization of this structure. -/
def mockJsonCategories (prs : List GenPR) (cats : List GenCategory) :
    List (String × NotesCategory) :=
  prs.foldl (fun m pr =>
    let categoryName := (prCategoryName cats pr).getD ("Other Changes")
    let item : NotesItem := ⟨pr.title, pr.prNumber, pr.url, pr.author⟩
    match recGet m categoryName with
    | some c => recSet m categoryName ⟨c.title, c.items ++ [item]⟩
    | none => recSet m categoryName ⟨categoryName, [item]⟩) []

/-- The structured document serialized by the JSON branch of
`generateMockResponse`. -/
structure MockJsonDoc where
  version : String
  releaseDate : String
  summary : String
  categories : List (String × NotesCategory)
deriving DecidableEq, Repr

/-- JSON branch of `generateMockResponse` (total, never throws). -/
def generateMockJson (release : GenRelease) (prs : List GenPR)
    (cats : List GenCategory) : MockJsonDoc :=
  { version := release.version
    releaseDate := release.releaseDate
    summary := "This is a mock changelog for " ++ release.version
    categories := mockJsonCategories prs cats }

/-- `release.name || release.version` (JS falsy name falls back). -/
def jsDisplayName (release : GenRelease) : String :=
  match release.name with
  | some n => if n = "" then release.version else n
  | none => release.version

/-- `new Date(d).toLocaleDateString()`: platform locale rendering of an ISO
timestamp, modelled as the identity on the stored string. -/
def localeDate (d : String) : String := d

/-- Markdown/HTML branch of `generateMockResponse` (changelog-generator.ts
lines 139-183).  The bucket map is seeded with the category names (or four
defaults when the category list is empty); each PR is pushed onto its bucket.
`prsByCategory["Other Changes"].push(pr)` on an object that has no
`"Other Changes"` key dereferences `undefined` — a thrown `TypeError`,
modelled as `Except.error`. -/
def generateMockMarkdown (release : GenRelease) (prs : List GenPR)
    (cats : List GenCategory) : Except String String := do
  let header := "# " ++ jsDisplayName release ++ "\n\n"
      ++ "Released on (" ++ localeDate release.releaseDate ++ ")\n\n"
      ++ (match release.description with
          | some d => if d = "" then ("") else d ++ "\n\n"
          | none => "")
      ++ "This is a mock changelog for testing without an Anthropic API key.\n\n"
  let seeded : List (String × List GenPR) :=
    cats.foldl (fun m c => recSet m c.name []) []
  let m0 := if seeded.isEmpty then
      [("Features", []), ("Bug Fixes", []), ("Documentation", []), ("Other Changes", [])]
    else seeded
  let buckets ← prs.foldlM (fun m pr => do
    let categoryName := (prCategoryName cats pr).getD ("Other Changes")
    match recGet m categoryName with
    | some l => pure (recSet m categoryName (l ++ [pr]))
    | none => Except.error ("TypeError: cannot read push of undefined")) m0
  let body := buckets.foldl (fun acc e =>
    if e.2.isEmpty then acc
    else acc ++ "## " ++ e.1 ++ "\n\n"
      ++ String.join (e.2.map (fun pr =>
          "- " ++ pr.title ++ " (#" ++ toString pr.prNumber ++ ") by @" ++ pr.author ++ "\n"))
      ++ "\n") ""
  pure (header ++ body)

/-- A changelog-generation result: either the serialization of a structured
JSON document (JSON.parse recovers the document) or literal rendered text
(JSON.parse fails on it). -/
inductive ChangelogOut where
  | jsonDoc (doc : MockJsonDoc)
  | text (s : String)
deriving DecidableEq, Repr

/-- `JSON.parse` applied to a changelog result. -/
def parseOut : ChangelogOut → Except String MockJsonDoc
  | .jsonDoc doc => pure doc
  | .text _ => Except.error ("SyntaxError: unexpected token in JSON")

/-- `ChangelogGenerator.isTestApiKey` is hard-coded `return true` in the
source (lines 79-91, production check commented out), so the Anthropic API
branch of `generateChangelog` is unreachable. -/
def isTestApiKey : Bool := true

/-- `ChangelogGenerator.generateChangelog`.  When `isTestApiKey()` (always, in
this source) the mock response is returned: the structured JSON document for
format `json`, the mock markdown text otherwise.  The unreachable production
branch — the Anthropic API call plus `processResponse` — is abstracted as the
parameter `production`, a function of the options; quantifying theorems over
every `production` covers every behaviour of the generative backend, including
one that always fails. -/
def generateChangelog (production : GenOptions → Except String ChangelogOut)
    (release : GenRelease) (prs : List GenPR) (cats : List GenCategory)
    (opts : GenOptions) : Except String ChangelogOut :=
  if isTestApiKey then
    match opts.format with
    | .json => pure (.jsonDoc (generateMockJson release prs cats))
    | _ => (generateMockMarkdown release prs cats).map .text
  else production opts

/-- `ReleaseNotes` (types.ts).  `raw` holds the second rendering when the
requested format is markdown or html. -/
structure GenReleaseNotes where
  version : String
  name : Option String
  releaseDate : String
  description : Option String
  categories : List (String × NotesCategory)
  commits : Option (List GenCommit)
  raw : Option ChangelogOut
deriving DecidableEq, Repr

/-- `ChangelogGenerator.generateReleaseNotes` (lines 363-439): generate the
JSON changelog, parse it, optionally generate the literal markdown/html
rendering; on any failure fall back to the mock JSON (and mock rendering), and
as a last resort to a single `"All Changes"` bucket — whose `raw` field again
invokes the mock renderer, so an exception there propagates out. -/
def generateReleaseNotes (production : GenOptions → Except String ChangelogOut)
    (release : GenRelease) (prs : List GenPR) (commits : List GenCommit)
    (cats : List GenCategory) (opts : GenOptions) : Except String GenReleaseNotes :=
  let wantRaw := opts.format = Format.markdown ∨ opts.format = Format.html
  let includedCommits : Option (List GenCommit) :=
    if opts.includeCommits = some true then some commits else none
  let attempt : Except String GenReleaseNotes := do
    let changelog ← generateChangelog production release prs cats
      { opts with format := Format.json }
    let jsonNotes ← parseOut changelog
    let raw : Option ChangelogOut ←
      if wantRaw then
        (generateChangelog production release prs cats opts).map some
      else pure none
    pure { version := release.version, name := release.name,
           releaseDate := release.releaseDate, description := release.description,
           categories := jsonNotes.categories, commits := includedCommits, raw := raw }
  match attempt with
  | .ok v => .ok v
  | .error _ =>
    let mockDoc := generateMockJson release prs cats
    let attempt2 : Except String GenReleaseNotes := do
      let raw : Option ChangelogOut ←
        if wantRaw then (generateMockMarkdown release prs cats).map (fun s => some (.text s))
        else pure none
      pure { version := release.version, name := release.name,
             releaseDate := release.releaseDate, description := release.description,
             categories := mockDoc.categories, commits := includedCommits, raw := raw }
    match attempt2 with
    | .ok v => .ok v
    | .error _ => do
      let rawOut : ChangelogOut ←
        match opts.format with
        | .json => pure (.jsonDoc mockDoc)
        | _ => (generateMockMarkdown release prs cats).map .text
      pure { version := release.version, name := release.name,
             releaseDate := release.releaseDate, description := release.description,
             categories := [("All Changes",
               ⟨"All Changes", prs.map (fun pr => ⟨pr.title, pr.prNumber, pr.url, pr.author⟩)⟩)],
             commits := includedCommits, raw := some rawOut }

/-! ## Concrete instances used by counterexamples and witnesses -/

/-- A published release row for repository `o/r`, version `v1` (the older
release: earlier release date, earlier insertion). -/
def sRel1 : ReleaseRow :=
  { id := 1, version := "v1", name := none, repository := "o/r",
    releaseDate := "2024-01-01", description := none, generatedNotes := none,
    publishedStatus := "published", createdAt := "T0", updatedAt := "T0" }

/-- A published release row for repository `o/r`, version `v2` (the most
recent release: later release date, later insertion). -/
def sRel2 : ReleaseRow :=
  { id := 2, version := "v2", name := none, repository := "o/r",
    releaseDate := "2024-06-01", description := none, generatedNotes := none,
    publishedStatus := "published", createdAt := "T1", updatedAt := "T1" }

/-- Store with a single release for `o/r`. -/
def s5 : Store := { releases := [sRel1], pullRequests := [], commits := [], categories := [] }

/-- A push whose ref `refs/heads/main2` names branch `main2`, not the default
branch `main` — but contains `refs/heads/main` as a substring. -/
def p5 : PushEvent :=
  { ref := "refs/heads/main2"
    repository := { full_name := "o/r", default_branch := "main" }
    commits := [{ id := some ("abc"), message := some ("msg"),
                  author := some ⟨"dev", "d@e"⟩, timestamp := "T2" }] }

/-- Store holding two releases for `o/r`: `sRel1` (older) first, `sRel2`
(most recent) second. -/
def s7 : Store := { releases := [sRel1, sRel2], pullRequests := [], commits := [], categories := [] }

/-- A merged pull-request event (action `closed`, non-null `merged_at`) for
repository `o/r`. -/
def p7 : PREvent :=
  { action := "closed"
    pull_request := { number := 42, title := "t", body := none, html_url := "u",
                      merged_at := some ("2024-06-02"), user_login := "dev", labels := none }
    repository := { full_name := "o/r", default_branch := "main" } }

/-! ## Theorems -/

/-- Helper: a found row satisfies the `prDedupe` key equations. -/
theorem prDedupe_of_find?_eq_some {l : List PullRequestRow} {rid n : Nat}
    {row : PullRequestRow} (h : l.find? (prDedupe rid n) = some row) :
    row.prNumber = n ∧ row.releaseId = rid := by
  have := List.find?_some h
  simpa [prDedupe] using this

/-- Helper: `storePullRequest` leaves the other tables untouched and returns
the id of a PR row of the result that carries the requested
`(pr_number, release_id)` pair. -/
theorem storePullRequest_attaches (s : Store) (rid : Nat) (pr : PRPayload) (now : String) :
    (storePullRequest s rid pr now).1.releases = s.releases
    ∧ (storePullRequest s rid pr now).1.commits = s.commits
    ∧ (storePullRequest s rid pr now).1.categories = s.categories
    ∧ ∃ row ∈ (storePullRequest s rid pr now).1.pullRequests,
        (storePullRequest s rid pr now).2 = row.id
        ∧ row.releaseId = rid ∧ row.prNumber = pr.number := by
  unfold storePullRequest
  rcases h : s.pullRequests.find? (prDedupe rid pr.number) with _ | row
  · refine ⟨rfl, rfl, rfl, prRowOf s rid pr now, ?_, rfl, rfl, rfl⟩
    simp
  · obtain ⟨h1, h2⟩ := prDedupe_of_find?_eq_some h
    exact ⟨rfl, rfl, rfl, row, List.mem_of_find?_eq_some h, rfl, h2, h1⟩

/-- C4: categorization is a pure, deterministic function of the label list.
The inline category chain of `WebhookHandler.storePullRequest`
(`computeCategoryId`) coincides, for every category table and label list, with
the spec categorizer `categorize` (lower-case, substring membership in the
fixed priority order Features, Bug Fixes, Improvements, Documentation,
Dependencies, Breaking Changes, first match wins, no match null) followed by
the category-name-to-id lookup; and the pinned examples hold:
`categorize ["feature","breaking-change"] = Features`,
`categorize ["bug"] = Bug Fixes`, `categorize [] = null`. -/
theorem c4_categorize_deterministic :
    (∀ (cats : List CategoryRow) (labels : List String),
      computeCategoryId cats labels
        = (categorize labels).bind (fun n =>
            (cats.find? (fun c => decide (c.name = n))).map (fun c => c.id)))
    ∧ categorize ["feature", "breaking-change"] = some ("Features")
    ∧ categorize ["bug"] = some ("Bug Fixes")
    ∧ categorize ([] : List String) = none := by
  refine ⟨fun cats labels => ?_, by decide, by decide, by decide⟩
  simp only [computeCategoryId, categorize]
  split_ifs <;> simp

/-- C5 counterexample: the push payload `p5` has ref `refs/heads/main2`, which
is not the ref of the default branch `main` (it names the different branch
`main2`), so by the claim it should be ignored with count 0 and no inserted
commits; but `processPushEvent` reports `processed` with count 1 and inserts
the commit, because the code tests `ref.includes(...)`, a substring match. -/
theorem c5_counterexample :
    p5.ref ≠ "refs/heads/" ++ p5.repository.default_branch
    ∧ (processPushEvent s5 p5 ("T3")).2 = ⟨"processed", 1⟩
    ∧ (processPushEvent s5 p5 ("T3")).1.commits.map (fun c => c.hash) = ["abc"] := by
  decide

/-- C5 (amended): `processPushEvent` processes commits only when the payload
ref CONTAINS `refs/heads/<repository.default_branch>` as a substring; a push
whose ref does not contain that string is ignored (status `ignored`, count 0)
with the store unchanged, and a push whose ref does contain it is never
`ignored`. -/
theorem c5_push_branch_filter (s : Store) (p : PushEvent) (now : String) :
    (strContains p.ref ("refs/heads/" ++ p.repository.default_branch) = false →
      processPushEvent s p now = (s, ⟨"ignored", 0⟩))
    ∧ (strContains p.ref ("refs/heads/" ++ p.repository.default_branch) = true →
      (processPushEvent s p now).2.status ≠ "ignored") := by
  constructor
  · intro h
    simp [processPushEvent, h]
  · intro h
    simp only [processPushEvent, h, Bool.not_true, Bool.false_eq_true, if_false]
    rcases hf : s.releases.find? (fun r => decide (r.repository = p.repository.full_name))
      with _ | r <;> simp [hf]

/-- Witness for C5 (amended), at a ref without the substring and at `p5`. -/
theorem c5_push_branch_filter_witness :
    processPushEvent s5 { p5 with ref := "refs/heads/dev" } "T3" = (s5, ⟨"ignored", 0⟩)
    ∧ (processPushEvent s5 p5 ("T3")).2.status ≠ "ignored" :=
  ⟨(c5_push_branch_filter s5 { p5 with ref := "refs/heads/dev" } "T3").1 (by decide),
   (c5_push_branch_filter s5 p5 ("T3")).2 (by decide)⟩

/-- C9: every PR inserted by `storePullRequest` has a non-null merge
timestamp: on a fresh `(pr_number, release_id)` pair exactly the row
`prRowOf` is appended; when the payload `merged_at` is null the current
timestamp `now` is substituted, and the stored `mergedAt` is never empty
(given a non-empty clock value). -/
theorem c9_merged_at_never_null (s : Store) (releaseId : Nat) (pr : PRPayload)
    (now : String)
    (hnew : s.pullRequests.find? (prDedupe releaseId pr.number) = none)
    (hnow : now ≠ "") :
    (storePullRequest s releaseId pr now).1.pullRequests
      = s.pullRequests ++ [prRowOf s releaseId pr now]
    ∧ (pr.merged_at = none → (prRowOf s releaseId pr now).mergedAt = now)
    ∧ (prRowOf s releaseId pr now).mergedAt ≠ "" := by
  refine ⟨by simp [storePullRequest, hnew], fun h => by simp [prRowOf, h], ?_⟩
  simp only [prRowOf]
  rcases pr.merged_at with _ | m
  · simpa using hnow
  · by_cases hm : m = "" <;> simp [hm, hnow]

/-- Witness for C9 at a merged-at-null payload on the empty store. -/
theorem c9_merged_at_never_null_witness :
    (storePullRequest ⟨[], [], [], []⟩ 1
        ⟨42, "t", none, "u", none, "dev", none⟩ "2024-01-01T00:00:00Z").1.pullRequests
      = [] ++ [prRowOf ⟨[], [], [], []⟩ 1 ⟨42, "t", none, "u", none, "dev", none⟩
                "2024-01-01T00:00:00Z"]
    ∧ (prRowOf ⟨[], [], [], []⟩ 1 ⟨42, "t", none, "u", none, "dev", none⟩
        "2024-01-01T00:00:00Z").mergedAt = "2024-01-01T00:00:00Z"
    ∧ (prRowOf ⟨[], [], [], []⟩ 1 ⟨42, "t", none, "u", none, "dev", none⟩
        "2024-01-01T00:00:00Z").mergedAt ≠ "" := by
  obtain ⟨h1, h2, h3⟩ := c9_merged_at_never_null (⟨[], [], [], []⟩ : Store) 1
    ⟨42, "t", none, "u", none, "dev", none⟩ "2024-01-01T00:00:00Z" (by decide) (by decide)
  exact ⟨h1, h2 rfl, h3⟩

/-- Helper: folding `processOneCommit` over a commit list equals folding over
the list with the invalid entries removed. -/
theorem foldl_processOneCommit_filter (rid : Nat) (now : String) :
    ∀ (cs : List PushCommit) (acc : Store × Nat),
      cs.foldl (processOneCommit rid now) acc
        = (cs.filter commitValid).foldl (processOneCommit rid now) acc := by
  intro cs
  induction cs with
  | nil => intro acc; rfl
  | cons c cs ih =>
    intro acc
    by_cases h : commitValid c
    · simp [List.filter_cons, h, ih]
    · have hskip : processOneCommit rid now acc c = acc := by
        simp [processOneCommit, h]
      simp [List.filter_cons, h, hskip, ih]

/-- C10: push-payload commits that fail the truthiness guard (missing or empty
id or message, missing author) are silently skipped: `processPushEvent` yields
exactly the same store, status and count as processing the payload with those
entries filtered out — they are not inserted, do not abort the remaining
commits, and are not counted. -/
theorem c10_malformed_commits_skipped (s : Store) (p : PushEvent) (now : String) :
    processPushEvent s p now
      = processPushEvent s { p with commits := p.commits.filter commitValid } now := by
  by_cases h : strContains p.ref ("refs/heads/" ++ p.repository.default_branch)
  · simp only [processPushEvent, h, Bool.not_true, Bool.false_eq_true, if_false]
    rcases hf : s.releases.find? (fun r => decide (r.repository = p.repository.full_name))
      with _ | r <;> simp [hf, foldl_processOneCommit_filter]
  · simp [processPushEvent, h]

/-- C7 counterexample: in store `s7` the most recent release for `o/r` is
`sRel2` (id 2, release date 2024-06-01, inserted last); the claim says the
merged PR is attached to it.  But the query has no recency ordering, so
`processPullRequestEvent` attaches the PR to the FIRST release row, `sRel1`
(id 1, release date 2024-01-01). -/
theorem c7_counterexample :
    (processPullRequestEvent s7 p7 ("T3")).2.status = "added"
    ∧ (processPullRequestEvent s7 p7 ("T3")).1.pullRequests.map (fun q => q.releaseId) = [1]
    ∧ s7.releases.map (fun q => (q.id, q.releaseDate))
        = [(1, "2024-01-01"), (2, "2024-06-01")]
    ∧ (1 : Nat) ≠ 2 := by
  decide

/-- C7 (amended): for every merged pull-request event (action `closed`,
truthy `merged_at`): when no release exists for the repository, a draft
release with version `unreleased` is created and the PR attached to it
(status `draft-release-created`); when at least one exists, the PR is
attached to the FIRST release row stored for that repository — the query
applies no recency ordering — with status `added`. -/
theorem c7_merged_pr_attachment (s : Store) (p : PREvent) (now : String)
    (hact : p.action = "closed")
    (hmerged : strFalsy p.pull_request.merged_at = false) :
    (s.releases.find? (fun q => decide (q.repository = p.repository.full_name)) = none →
      (processPullRequestEvent s p now).2.status = "draft-release-created"
      ∧ (processPullRequestEvent s p now).1.releases
          = s.releases ++ [draftReleaseRow s p.repository.full_name now]
      ∧ (draftReleaseRow s p.repository.full_name now).version = "unreleased"
      ∧ (draftReleaseRow s p.repository.full_name now).publishedStatus = "draft"
      ∧ ∃ row ∈ (processPullRequestEvent s p now).1.pullRequests,
          (processPullRequestEvent s p now).2.prId = some row.id
          ∧ row.releaseId = (draftReleaseRow s p.repository.full_name now).id
          ∧ row.prNumber = p.pull_request.number)
    ∧ (∀ r, s.releases.find? (fun q => decide (q.repository = p.repository.full_name)) = some r →
      (processPullRequestEvent s p now).2.status = "added"
      ∧ (processPullRequestEvent s p now).1.releases = s.releases
      ∧ ∃ row ∈ (processPullRequestEvent s p now).1.pullRequests,
          (processPullRequestEvent s p now).2.prId = some row.id
          ∧ row.releaseId = r.id ∧ row.prNumber = p.pull_request.number) := by
  have hcond : ¬(p.action ≠ "closed" ∨ strFalsy p.pull_request.merged_at = true) := by
    simp [hact, hmerged]
  constructor
  · intro hnone
    unfold processPullRequestEvent
    rw [if_neg hcond]
    simp only [hnone]
    obtain ⟨hrel, -, -, row, hmem, hid, hrid, hnum⟩ :=
      storePullRequest_attaches
        { s with releases := s.releases ++ [draftReleaseRow s p.repository.full_name now] }
        (draftReleaseRow s p.repository.full_name now).id p.pull_request now
    exact ⟨by trivial, hrel, by trivial, by trivial, row, hmem, by simp [hid], hrid, hnum⟩
  · intro r hr
    unfold processPullRequestEvent
    rw [if_neg hcond]
    simp only [hr]
    obtain ⟨hrel, -, -, row, hmem, hid, hrid, hnum⟩ :=
      storePullRequest_attaches s r.id p.pull_request now
    exact ⟨by trivial, hrel, row, hmem, by simp [hid], hrid, hnum⟩

/-- Witness for C7 (amended) at the two-release store `s7`. -/
theorem c7_merged_pr_attachment_witness :
    (processPullRequestEvent s7 p7 ("T3")).2.status = "added"
    ∧ (processPullRequestEvent s7 p7 ("T3")).1.releases = s7.releases
    ∧ ∃ row ∈ (processPullRequestEvent s7 p7 ("T3")).1.pullRequests,
        (processPullRequestEvent s7 p7 ("T3")).2.prId = some row.id
        ∧ row.releaseId = sRel1.id ∧ row.prNumber = p7.pull_request.number :=
  (c7_merged_pr_attachment s7 p7 ("T3") rfl (by decide)).2 sRel1 (by decide)

/-- C8: commit-PR linkage.  For a default-branch push carrying one valid,
fresh commit whose message contains a `#<digits>` reference (extracted as
`findPRNumber`): the commit row is inserted and the push reported processed
with count 1; when a PR with that number exists within the current release
the row carries that PR id as its `pull_request` reference, and when no such
PR exists the row carries a null reference and the operation still succeeds.
The extraction matches the pinned example `"Fix login (#42)" ↦ 42`. -/
theorem c8_commit_pr_linkage (s : Store) (r : ReleaseRow) (full defb ref : String)
    (c : PushCommit) (now : String) (n : Nat)
    (href : strContains ref ("refs/heads/" ++ defb) = true)
    (hrel : s.releases.find? (fun q => decide (q.repository = full)) = some r)
    (hvalid : commitValid c = true)
    (hfresh : s.commits.find? (fun q => decide (q.hash = c.id.getD (""))) = none)
    (hnum : findPRNumber (c.message.getD ("")) = some n) :
    (processPushEvent s ⟨ref, ⟨full, defb⟩, [c]⟩ now).1.commits
        = s.commits ++ [pushCommitRowOf s r.id c now]
    ∧ (processPushEvent s ⟨ref, ⟨full, defb⟩, [c]⟩ now).2 = ⟨"processed", 1⟩
    ∧ (∀ prRow, s.pullRequests.find? (prDedupe r.id n) = some prRow →
        (pushCommitRowOf s r.id c now).pullRequestId = some prRow.id)
    ∧ (s.pullRequests.find? (prDedupe r.id n) = none →
        (pushCommitRowOf s r.id c now).pullRequestId = none)
    ∧ findPRNumber ("Fix login (#42)") = some 42 := by
  have hstep : processPushEvent s ⟨ref, ⟨full, defb⟩, [c]⟩ now
      = ({ s with commits := s.commits ++ [pushCommitRowOf s r.id c now] },
         ⟨"processed", 1⟩) := by
    simp only [processPushEvent, href, Bool.not_true, Bool.false_eq_true, if_false, hrel,
      List.foldl_cons, List.foldl_nil, processOneCommit, hvalid, hfresh]
    simp
  refine ⟨by rw [hstep], by rw [hstep], ?_, ?_, by decide⟩
  · intro prRow hpr
    simp [pushCommitRowOf, resolvePRLink, hnum, hpr]
  · intro hpr
    simp [pushCommitRowOf, resolvePRLink, hnum, hpr]

/-- PR row #42 attached to release 1, for the C8 witness. -/
def prRow42 : PullRequestRow :=
  { id := 7, prNumber := 42, releaseId := 1, title := "Fix login", author := "dev",
    description := none, url := "u", mergedAt := "T", labels := ["bug"],
    categoryId := none, createdAt := "T", updatedAt := "T" }

/-- Store with release `sRel1` and PR #42, for the C8 witness. -/
def s8 : Store :=
  { releases := [sRel1], pullRequests := [prRow42], commits := [], categories := [] }

/-- A valid push commit whose message references PR #42. -/
def c8commit : PushCommit :=
  { id := some ("deadbeef"), message := some ("Fix login (#42)"),
    author := some ⟨"dev", "d@e"⟩, timestamp := "T2" }

/-- Witness for C8 at store `s8`. -/
theorem c8_commit_pr_linkage_witness :
    (processPushEvent s8 ⟨"refs/heads/main", ⟨"o/r", "main"⟩, [c8commit]⟩ "T3").1.commits
      = s8.commits ++ [pushCommitRowOf s8 sRel1.id c8commit ("T3")]
    ∧ (pushCommitRowOf s8 sRel1.id c8commit ("T3")).pullRequestId = some prRow42.id := by
  obtain ⟨h1, h2, h3, h4, h5⟩ := c8_commit_pr_linkage s8 sRel1 ("o/r") "main" "refs/heads/main"
    c8commit ("T3") 42 (by decide) (by decide) (by decide) (by decide) (by decide)
  exact ⟨h1, h3 prRow42 (by decide)⟩

/-! ## Signature-verification lemmas (C2) -/

/-- `String.join` unfolds over cons. -/
theorem strJoin_cons (s : String) (l : List String) :
    String.join (s :: l) = s ++ String.join l := by
  have aux : ∀ (l : List String) (a : String),
      l.foldl (fun r t => r ++ t) a = a ++ l.foldl (fun r t => r ++ t) "" := by
    intro l
    induction l with
    | nil => intro a; simp
    | cons x xs ih =>
      intro a
      simp only [List.foldl]
      rw [ih (a ++ x), ih ("" ++ x), String.empty_append, String.append_assoc]
  simp only [String.join, List.foldl]
  rw [aux l ("" ++ s), String.empty_append]

/-- `bytesToHex` unfolds over cons. -/
theorem bytesToHex_cons (b : Nat) (bs : List Nat) :
    bytesToHex (b :: bs) = byteToHex b ++ bytesToHex bs := by
  simp only [bytesToHex, List.map_cons, strJoin_cons]

/-- `hexDigit` is injective on nibbles. -/
theorem hexDigit_inj_fin : ∀ m n : Fin 16, hexDigit m.val = hexDigit n.val → m = n := by
  decide

/-- `hexDigit` is injective below 16. -/
theorem hexDigit_inj {m n : Nat} (hm : m < 16) (hn : n < 16)
    (h : hexDigit m = hexDigit n) : m = n :=
  congrArg Fin.val (hexDigit_inj_fin ⟨m, hm⟩ ⟨n, hn⟩ h)

/-- `byteToHex` is injective on bytes. -/
theorem byteToHex_inj {a b : Nat} (ha : a < 256) (hb : b < 256)
    (h : byteToHex a = byteToHex b) : a = b := by
  have hdata := congrArg String.data h
  simp only [byteToHex] at hdata
  have h1 : hexDigit (a / 16 % 16) = hexDigit (b / 16 % 16) := by
    simpa using congrArg (fun l => l.headD ⟨0, by decide⟩) hdata
  have h2 : hexDigit (a % 16) = hexDigit (b % 16) := by
    simpa using congrArg (fun l => (l.drop 1).headD ⟨0, by decide⟩) hdata
  have e1 : a / 16 % 16 = b / 16 % 16 :=
    hexDigit_inj (Nat.mod_lt _ (by omega)) (Nat.mod_lt _ (by omega)) h1
  have e2 : a % 16 = b % 16 :=
    hexDigit_inj (Nat.mod_lt _ (by omega)) (Nat.mod_lt _ (by omega)) h2
  omega

/-- `bytesToHex` is injective on byte lists. -/
theorem bytesToHex_inj : ∀ (bs1 bs2 : List Nat),
    (∀ x ∈ bs1, x < 256) → (∀ x ∈ bs2, x < 256) →
    bytesToHex bs1 = bytesToHex bs2 → bs1 = bs2 := by
  intro bs1
  induction bs1 with
  | nil =>
    intro bs2 h1 h2 h
    cases bs2 with
    | nil => rfl
    | cons b bs =>
      exfalso
      rw [bytesToHex_cons] at h
      have hl := congrArg String.length h
      have h0 : String.length (bytesToHex []) = 0 := by decide
      rw [h0, String.length_append] at hl
      have h2l : String.length (byteToHex b) = 2 := by
        simp [byteToHex, String.length]
      omega
  | cons a as ih =>
    intro bs2 h1 h2 h
    cases bs2 with
    | nil =>
      exfalso
      rw [bytesToHex_cons] at h
      have hl := congrArg String.length h
      have h0 : String.length (bytesToHex []) = 0 := by decide
      rw [h0, String.length_append] at hl
      have h2l : String.length (byteToHex a) = 2 := by
        simp [byteToHex, String.length]
      omega
    | cons b bs =>
      rw [bytesToHex_cons, bytesToHex_cons] at h
      have hdata := congrArg String.data h
      simp only [String.data_append] at hdata
      have hlen : (byteToHex a).data.length = (byteToHex b).data.length := by
        simp [byteToHex]
      obtain ⟨hhead, htail⟩ := List.append_inj hdata hlen
      have hab : a = b :=
        byteToHex_inj (h1 a (by simp)) (h2 b (by simp)) (String.ext hhead)
      have hrest : as = bs :=
        ih bs (fun x hx => h1 x (by simp [hx])) (fun x hx => h2 x (by simp [hx]))
          (String.ext htail)
      rw [hab, hrest]

/-- C2: signature verification is a total boolean function.
`verifyWebhookSignature` returns true exactly when the secret is non-empty and
the header signature equals `sha256=` followed by the lowercase hex encoding
of the HMAC digest of the raw payload (the HMAC-SHA256 primitive is the Web
Crypto collaborator, a parameter); it returns false — it cannot throw, being a
total function — when the signature is empty, lacks the `sha256=` prefix, or
the secret is empty; and a payload change that changes the digest invalidates
a previously valid signature. -/
theorem c2_verify_signature_correct (hmac : String → String → List Nat)
    (secret payload signature : String) :
    (verifyWebhookSignature hmac secret payload signature = true ↔
      secret ≠ "" ∧ signature = "sha256=" ++ bytesToHex (hmac secret payload))
    ∧ ∀ payload2 : String,
        (∀ x ∈ hmac secret payload, x < 256) →
        (∀ x ∈ hmac secret payload2, x < 256) →
        hmac secret payload2 ≠ hmac secret payload →
        verifyWebhookSignature hmac secret payload signature = true →
        verifyWebhookSignature hmac secret payload2 signature = false := by
  have hiff : ∀ pl : String, verifyWebhookSignature hmac secret pl signature = true ↔
      secret ≠ "" ∧ signature = "sha256=" ++ bytesToHex (hmac secret pl) := by
    intro pl
    unfold verifyWebhookSignature
    split_ifs with h1 h2
    · constructor
      · intro hf; exact absurd hf (by decide)
      · rintro ⟨hs, hsig⟩
        exfalso
        rcases h1 with h1 | h1
        · rw [h1] at hsig
          have hl := congrArg String.length hsig
          have h7 : String.length ("sha256=") = 7 := by decide
          have h0 : String.length ("") = 0 := by decide
          rw [h0, String.length_append, h7] at hl
          omega
        · exact hs h1
    · constructor
      · intro hf; exact absurd hf (by decide)
      · rintro ⟨hs, hsig⟩
        exfalso
        rw [hsig] at h2
        have hpre : jsStartsWith ("sha256=" ++ bytesToHex (hmac secret pl)) ("sha256=")
            = true := by
          simp [jsStartsWith]
        rw [hpre] at h2
        exact absurd h2 (by decide)
    · simp only [decide_eq_true_eq]
      constructor
      · intro he
        exact ⟨fun hsec => h1 (Or.inr hsec), he.symm⟩
      · rintro ⟨hs, hsig⟩
        exact hsig.symm
  refine ⟨hiff payload, ?_⟩
  intro payload2 hb1 hb2 hne hv
  obtain ⟨hs, hsig⟩ := (hiff payload).mp hv
  cases hv2 : verifyWebhookSignature hmac secret payload2 signature with
  | false => rfl
  | true =>
    exfalso
    obtain ⟨-, hsig2⟩ := (hiff payload2).mp hv2
    rw [hsig] at hsig2
    have hd := congrArg String.data hsig2
    simp only [String.data_append] at hd
    have hx : bytesToHex (hmac secret payload) = bytesToHex (hmac secret payload2) :=
      String.ext (List.append_cancel_left hd)
    exact hne (bytesToHex_inj _ _ hb1 hb2 hx).symm

/-- A toy stand-in for the HMAC collaborator used only to witness C2: a single
digest byte derived from the secret and payload lengths. -/
def hmacToy : String → String → List Nat :=
  fun secret pl => [(secret.length + pl.length) % 256]

/-- Witness for C2: a concrete valid signature accepted, and rejected for a
payload with a different digest. -/
theorem c2_verify_signature_correct_witness :
    verifyWebhookSignature hmacToy ("k") "hello" "sha256=06" = true
    ∧ verifyWebhookSignature hmacToy ("k") "hello!" "sha256=06" = false :=
  ⟨((c2_verify_signature_correct hmacToy ("k") "hello" "sha256=06").1).mpr
      ⟨by decide, by decide⟩,
   (c2_verify_signature_correct hmacToy ("k") "hello" "sha256=06").2 ("hello!")
      (by decide) (by decide) (by decide)
      (((c2_verify_signature_correct hmacToy ("k") "hello" "sha256=06").1).mpr
        ⟨by decide, by decide⟩)⟩

/-! ## Changelog fallback (C3) -/

/-- A release used by the C3 evaluation. -/
def rel3 : GenRelease :=
  { version := "v1.0.0", name := some ("R1"), repository := "o/r",
    releaseDate := "2024-06-01", description := some ("desc") }

/-- The six-category taxonomy the system seeds lazily
(`initializeDefaultCategories` in src/utils/agentUtils.ts lines 85-93): note
there is no `Other Changes` row. -/
def cats3 : List GenCategory :=
  [⟨some 1, "Features"⟩, ⟨some 2, "Bug Fixes"⟩, ⟨some 3, "Improvements"⟩,
   ⟨some 4, "Documentation"⟩, ⟨some 5, "Dependencies"⟩, ⟨some 6, "Breaking Changes"⟩]

/-- Two PRs: one categorized (Bug Fixes), one uncategorized — exactly what the
ingestion engine produces for a PR whose labels match no category. -/
def prs3 : List GenPR :=
  [{ prNumber := 41, title := "Fix bug", author := "a", url := "u1",
     categoryId := some 2, labels := some ["bug"] },
   { prNumber := 43, title := "Chore", author := "b", url := "u2",
     categoryId := none, labels := some ["chore"] }]

/-- Markdown output requested. -/
def opts3 : GenOptions :=
  { format := .markdown, style := some ("technical"), includeCommits := some false,
    customPrompt := none }

/-- A generative backend that always fails. -/
def failingProduction : GenOptions → Except String ChangelogOut :=
  fun _ => Except.error ("backend down")

/-- C3: the degradation policy is violated.  At a release with a categorized
PR (and one uncategorized PR) under the lazily-seeded six-category taxonomy,
with markdown requested and the generative backend failing (it is in fact
never consulted, `isTestApiKey` being hard-coded), `generateReleaseNotes` does
not return fallback notes: the mock markdown renderer dereferences the missing
`Other Changes` bucket, the thrown TypeError escapes every catch layer (the
last-resort branch calls the same renderer again), and the whole call raises
instead of returning.  The spec requires this fallback to always succeed and
never raise. -/
theorem c3_fallback_raises_on_uncategorized_pr :
    generateReleaseNotes failingProduction rel3 prs3 [] cats3 opts3
      = Except.error ("TypeError: cannot read push of undefined")
    ∧ prs3.any (fun pr => (prCategoryName cats3 pr).isSome) = true
    ∧ cats3.all (fun c => decide (c.name ≠ "Other Changes")) = true :=
  ⟨rfl, by decide, by decide⟩

/-! ## Idempotency (C1): generic and frame lemmas -/

/-- Generic preservation of a predicate by a left fold. -/
theorem foldl_preserves {σ α : Type} {P : σ → Prop} {f : σ → α → σ}
    (hf : ∀ s a, P s → P (f s a)) : ∀ (l : List α) (s : σ), P s → P (l.foldl f s) := by
  intro l
  induction l with
  | nil => intro s hs; exact hs
  | cons a as ih => intro s hs; exact ih (f s a) (hf s a hs)

/-- `find?` skips a prefix in which nothing matches. -/
theorem find?_append_none {α : Type} {p : α → Bool} {l1 l2 : List α}
    (h : l1.find? p = none) : (l1 ++ l2).find? p = l2.find? p := by
  rw [List.find?_append, h, Option.none_or]

/-- `find?` is determined by a matching prefix. -/
theorem find?_append_some {α : Type} {p : α → Bool} {l1 l2 : List α} {a : α}
    (h : l1.find? p = some a) : (l1 ++ l2).find? p = some a := by
  rw [List.find?_append, h]
  rfl

/-- An element's id never exceeds `maxId`. -/
theorem le_maxId : ∀ {l : List Nat} {x : Nat}, x ∈ l → x ≤ maxId l := by
  have init_le : ∀ (l : List Nat) (a : Nat), a ≤ l.foldl max a := by
    intro l
    induction l with
    | nil => intro a; simp
    | cons x xs ih => intro a; exact le_trans (Nat.le_max_left a x) (ih (max a x))
  have gen : ∀ (l : List Nat) (a x : Nat), x ∈ l → x ≤ l.foldl max a := by
    intro l
    induction l with
    | nil => intro a x hx; cases hx
    | cons y ys ih =>
      intro a x hx
      rw [List.foldl_cons]
      rcases List.mem_cons.mp hx with rfl | hx
      · exact le_trans (Nat.le_max_right a x) (init_le ys (max a x))
      · exact ih (max a y) x hx
  intro l x hx
  exact gen l 0 x hx

/-- `processOneCommit` leaves releases, pull requests and categories
untouched and only appends commits. -/
theorem processOneCommit_frame (rid : Nat) (now : String) (acc : Store × Nat)
    (c : PushCommit) :
    ((processOneCommit rid now acc c).1.releases = acc.1.releases
      ∧ (processOneCommit rid now acc c).1.pullRequests = acc.1.pullRequests
      ∧ (processOneCommit rid now acc c).1.categories = acc.1.categories)
    ∧ ∃ l, (processOneCommit rid now acc c).1.commits = acc.1.commits ++ l := by
  simp only [processOneCommit]
  split
  · exact ⟨⟨rfl, rfl, rfl⟩, [], by simp⟩
  · split
    · exact ⟨⟨rfl, rfl, rfl⟩, [], by simp⟩
    · exact ⟨⟨rfl, rfl, rfl⟩, [pushCommitRowOf acc.1 rid c now], rfl⟩

/-- Frame lemma for the whole push-commit fold. -/
theorem foldl_processOneCommit_frame (rid : Nat) (now : String) :
    ∀ (cs : List PushCommit) (acc : Store × Nat),
      ((cs.foldl (processOneCommit rid now) acc).1.releases = acc.1.releases
        ∧ (cs.foldl (processOneCommit rid now) acc).1.pullRequests = acc.1.pullRequests
        ∧ (cs.foldl (processOneCommit rid now) acc).1.categories = acc.1.categories)
      ∧ ∃ l, (cs.foldl (processOneCommit rid now) acc).1.commits = acc.1.commits ++ l := by
  intro cs
  induction cs with
  | nil => intro acc; exact ⟨⟨rfl, rfl, rfl⟩, [], by simp⟩
  | cons c cs ih =>
    intro acc
    obtain ⟨⟨f1, f2, f3⟩, l1, hl1⟩ := processOneCommit_frame rid now acc c
    obtain ⟨⟨g1, g2, g3⟩, l2, hl2⟩ := ih (processOneCommit rid now acc c)
    rw [List.foldl_cons]
    exact ⟨⟨by rw [g1, f1], by rw [g2, f2], by rw [g3, f3]⟩,
           l1 ++ l2, by rw [hl2, hl1, List.append_assoc]⟩

/-- After the push fold, the hash of every valid commit of the processed list
is present in the store. -/
theorem foldl_processOneCommit_hashes (rid : Nat) (now : String) :
    ∀ (cs : List PushCommit) (acc : Store × Nat) (c : PushCommit),
      c ∈ cs → commitValid c = true →
      ∃ r ∈ (cs.foldl (processOneCommit rid now) acc).1.commits,
        r.hash = c.id.getD ("") := by
  intro cs
  induction cs with
  | nil => intro acc c hc; cases hc
  | cons d cs ih =>
    intro acc c hc hv
    rcases List.mem_cons.mp hc with rfl | hc
    · have hstep : ∃ r ∈ (processOneCommit rid now acc c).1.commits,
          r.hash = c.id.getD ("") := by
        unfold processOneCommit
        rw [hv]
        simp only [Bool.not_true, Bool.false_eq_true, if_false]
        split
        · rename_i hsome
          rw [List.find?_isSome] at hsome
          obtain ⟨r, hr, hp⟩ := hsome
          exact ⟨r, hr, by simpa using hp⟩
        · exact ⟨pushCommitRowOf acc.1 rid c now, by simp, rfl⟩
      obtain ⟨r, hr, he⟩ := hstep
      obtain ⟨-, l, hl⟩ := foldl_processOneCommit_frame rid now cs (processOneCommit rid now acc c)
      rw [List.foldl_cons, hl]
      exact ⟨r, by simp [hr], he⟩
    · rw [List.foldl_cons]
      exact ih (processOneCommit rid now acc d) c hc hv

/-- The push fold is the identity when every valid commit hash is already
present. -/
theorem foldl_processOneCommit_noop (rid : Nat) (now : String) :
    ∀ (cs : List PushCommit) (t : Store) (k : Nat),
      (∀ c ∈ cs, commitValid c = true → ∃ r ∈ t.commits, r.hash = c.id.getD ("")) →
      cs.foldl (processOneCommit rid now) (t, k) = (t, k) := by
  intro cs
  induction cs with
  | nil => intro t k h; rfl
  | cons c cs ih =>
    intro t k h
    have hstep : processOneCommit rid now (t, k) c = (t, k) := by
      by_cases hv : commitValid c
      · unfold processOneCommit
        rw [hv]
        simp only [Bool.not_true, Bool.false_eq_true, if_false]
        have hsome : ((t, k).1.commits.find?
            (fun r => decide (r.hash = c.id.getD ("")))).isSome = true := by
          rw [List.find?_isSome]
          obtain ⟨r, hr, he⟩ := h c (by simp) hv
          exact ⟨r, hr, by simp [he]⟩
        simp [hsome]
      · simp [processOneCommit, hv]
    rw [List.foldl_cons, hstep]
    exact ih t k (fun d hd hdv => h d (by simp [hd]) hdv)

/-- Push ingestion is idempotent on the store. -/
theorem processPushEvent_idem (s : Store) (p : PushEvent) (now : String) :
    (processPushEvent (processPushEvent s p now).1 p now).1
      = (processPushEvent s p now).1 := by
  by_cases h : strContains p.ref ("refs/heads/" ++ p.repository.default_branch)
  · rcases hf : s.releases.find? (fun q => decide (q.repository = p.repository.full_name))
      with _ | r
    · simp [processPushEvent, h, hf]
    · have hout : processPushEvent s p now
          = ((p.commits.foldl (processOneCommit r.id now) (s, 0)).1,
             ⟨"processed", (p.commits.foldl (processOneCommit r.id now) (s, 0)).2⟩) := by
        simp only [processPushEvent, h, Bool.not_true, Bool.false_eq_true, if_false, hf]
      obtain ⟨⟨hrel, -, -⟩, -⟩ :=
        foldl_processOneCommit_frame r.id now p.commits (s, 0)
      have hf2 : (p.commits.foldl (processOneCommit r.id now) (s, 0)).1.releases.find?
          (fun q => decide (q.repository = p.repository.full_name)) = some r := by
        rw [hrel]
        exact hf
      have hnoop : p.commits.foldl (processOneCommit r.id now)
          ((p.commits.foldl (processOneCommit r.id now) (s, 0)).1, 0)
          = ((p.commits.foldl (processOneCommit r.id now) (s, 0)).1, 0) :=
        foldl_processOneCommit_noop r.id now p.commits _ 0
          (fun c hc hv => foldl_processOneCommit_hashes r.id now p.commits (s, 0) c hc hv)
      rw [hout]
      simp only [processPushEvent, h, Bool.not_true, Bool.false_eq_true, if_false, hf2, hnoop]
  · simp [processPushEvent, h]

/-- After `storePullRequest`, a row with the requested dedupe key is found. -/
theorem storePullRequest_dedupe_after (s : Store) (rid : Nat) (pr : PRPayload)
    (now : String) :
    ∃ row, (storePullRequest s rid pr now).1.pullRequests.find?
        (prDedupe rid pr.number) = some row := by
  unfold storePullRequest
  rcases h : s.pullRequests.find? (prDedupe rid pr.number) with _ | row
  · refine ⟨prRowOf s rid pr now, ?_⟩
    simp only []
    rw [find?_append_none h]
    simp [List.find?, prDedupe, prRowOf]
  · exact ⟨row, h⟩

/-- `storePullRequest` is the identity on the store when the dedupe key is
already present. -/
theorem storePullRequest_noop (s : Store) (rid : Nat) (pr : PRPayload) (now : String)
    (h : (s.pullRequests.find? (prDedupe rid pr.number)).isSome = true) :
    (storePullRequest s rid pr now).1 = s := by
  unfold storePullRequest
  rcases hx : s.pullRequests.find? (prDedupe rid pr.number) with _ | row
  · rw [hx] at h
    cases h
  · rfl

/-- Pull-request ingestion is idempotent on the store. -/
theorem processPullRequestEvent_idem (s : Store) (p : PREvent) (now : String) :
    (processPullRequestEvent (processPullRequestEvent s p now).1 p now).1
      = (processPullRequestEvent s p now).1 := by
  by_cases hc : p.action ≠ "closed" ∨ strFalsy p.pull_request.merged_at = true
  · simp [processPullRequestEvent, hc]
  · rcases hf : s.releases.find? (fun q => decide (q.repository = p.repository.full_name))
      with _ | r
    · -- draft path
      have hout : processPullRequestEvent s p now
          = ((storePullRequest
                { s with releases := s.releases ++ [draftReleaseRow s p.repository.full_name now] }
                (draftReleaseRow s p.repository.full_name now).id p.pull_request now).1,
             ⟨"draft-release-created",
              some (storePullRequest
                { s with releases := s.releases ++ [draftReleaseRow s p.repository.full_name now] }
                (draftReleaseRow s p.repository.full_name now).id p.pull_request now).2⟩) := by
        unfold processPullRequestEvent
        rw [if_neg hc]
        simp only [hf]
      obtain ⟨hrel, -, -, -⟩ :=
        storePullRequest_attaches
          { s with releases := s.releases ++ [draftReleaseRow s p.repository.full_name now] }
          (draftReleaseRow s p.repository.full_name now).id p.pull_request now
      have hf2 : (storePullRequest
            { s with releases := s.releases ++ [draftReleaseRow s p.repository.full_name now] }
            (draftReleaseRow s p.repository.full_name now).id p.pull_request now).1.releases.find?
          (fun q => decide (q.repository = p.repository.full_name))
          = some (draftReleaseRow s p.repository.full_name now) := by
        rw [hrel]
        show (s.releases ++ [draftReleaseRow s p.repository.full_name now]).find? _ = _
        rw [find?_append_none hf]
        simp [List.find?, draftReleaseRow]
      obtain ⟨row, hrow⟩ :=
        storePullRequest_dedupe_after
          { s with releases := s.releases ++ [draftReleaseRow s p.repository.full_name now] }
          (draftReleaseRow s p.repository.full_name now).id p.pull_request now
      rw [hout]
      unfold processPullRequestEvent
      rw [if_neg hc]
      simp only [hf2]
      exact storePullRequest_noop _ _ _ _ (by rw [hrow]; rfl)
    · -- added path
      have hout : processPullRequestEvent s p now
          = ((storePullRequest s r.id p.pull_request now).1,
             ⟨"added", some (storePullRequest s r.id p.pull_request now).2⟩) := by
        unfold processPullRequestEvent
        rw [if_neg hc]
        simp only [hf]
      obtain ⟨hrel, -, -, -⟩ := storePullRequest_attaches s r.id p.pull_request now
      have hf2 : (storePullRequest s r.id p.pull_request now).1.releases.find?
          (fun q => decide (q.repository = p.repository.full_name)) = some r := by
        rw [hrel]
        exact hf
      obtain ⟨row, hrow⟩ := storePullRequest_dedupe_after s r.id p.pull_request now
      rw [hout]
      unfold processPullRequestEvent
      rw [if_neg hc]
      simp only [hf2]
      exact storePullRequest_noop _ _ _ _ (by rw [hrow]; rfl)

/-- `insertPRCommit` only touches the commits table. -/
theorem insertPRCommit_frame (rid pid : Nat) (now : String) (s : Store)
    (c : FetchedCommit) :
    (insertPRCommit rid pid now s c).releases = s.releases
    ∧ (insertPRCommit rid pid now s c).pullRequests = s.pullRequests
    ∧ (insertPRCommit rid pid now s c).categories = s.categories := by
  unfold insertPRCommit
  split <;> exact ⟨rfl, rfl, rfl⟩

/-- `fetchAndStoreCommitsForPR` only touches the commits table. -/
theorem fetchAndStoreCommitsForPR_frame (s : Store) (rid n : Nat)
    (cs : List FetchedCommit) (now : String) :
    (fetchAndStoreCommitsForPR s rid n cs now).releases = s.releases
    ∧ (fetchAndStoreCommitsForPR s rid n cs now).pullRequests = s.pullRequests
    ∧ (fetchAndStoreCommitsForPR s rid n cs now).categories = s.categories := by
  unfold fetchAndStoreCommitsForPR
  split
  · exact ⟨rfl, rfl, rfl⟩
  · rename_i prRow hpr
    exact foldl_preserves
      (P := fun t => t.releases = s.releases ∧ t.pullRequests = s.pullRequests
        ∧ t.categories = s.categories)
      (fun t c ht => by
        obtain ⟨h1, h2, h3⟩ := insertPRCommit_frame rid prRow.id now t c
        exact ⟨h1.trans ht.1, h2.trans ht.2.1, h3.trans ht.2.2⟩)
      cs s ⟨rfl, rfl, rfl⟩

/-- Backfill leaves the releases and categories tables untouched. -/
theorem fetchAndStorePRsForRelease_frame (s : Store) (rid : Nat)
    (fetched : List BackfillEntry) (now : String) :
    (fetchAndStorePRsForRelease s rid fetched now).releases = s.releases
    ∧ (fetchAndStorePRsForRelease s rid fetched now).categories = s.categories := by
  unfold fetchAndStorePRsForRelease
  exact foldl_preserves
    (P := fun t => t.releases = s.releases ∧ t.categories = s.categories)
    (fun t e ht => by
      obtain ⟨hr, -, hc, -⟩ := storePullRequest_attaches t rid e.pr now
      obtain ⟨h1, -, h3⟩ := fetchAndStoreCommitsForPR_frame
        (storePullRequest t rid e.pr now).1 rid e.pr.number e.commits now
      exact ⟨(h1.trans hr).trans ht.1, (h3.trans hc).trans ht.2⟩)
    fetched s ⟨rfl, rfl⟩

/-- `find?` commutes with a map along which the predicate is invariant. -/
theorem find?_map_key {α : Type} (p : α → Bool) (f : α → α) (l : List α)
    (hp : ∀ x, p (f x) = p x) :
    (l.map f).find? p = (l.find? p).map f := by
  rw [List.find?_map]
  have : p ∘ f = p := funext hp
  rw [this]

/-- The release update does not change the dedupe key or the row id. -/
theorem applyReleaseUpdate_key (p : ReleaseEvent) (now : String) (i : Nat)
    (r : ReleaseRow) :
    (applyReleaseUpdate p now i r).repository = r.repository
    ∧ (applyReleaseUpdate p now i r).version = r.version
    ∧ (applyReleaseUpdate p now i r).id = r.id := by
  unfold applyReleaseUpdate
  split <;> exact ⟨rfl, rfl, rfl⟩

/-- The release update is idempotent. -/
theorem applyReleaseUpdate_idem (p : ReleaseEvent) (now : String) (i : Nat)
    (r : ReleaseRow) :
    applyReleaseUpdate p now i (applyReleaseUpdate p now i r)
      = applyReleaseUpdate p now i r := by
  obtain ⟨a, b, c, d, e, f, g, h, j, k⟩ := r
  unfold applyReleaseUpdate
  by_cases hid : a = i <;> simp [hid]

/-- Release ingestion is idempotent on the store. -/
theorem processReleaseEvent_idem (s : Store) (p : ReleaseEvent)
    (fetched : List BackfillEntry) (now : String) :
    (processReleaseEvent (processReleaseEvent s p fetched now).1 p fetched now).1
      = (processReleaseEvent s p fetched now).1 := by
  by_cases ha : p.action ≠ "published" ∧ p.action ≠ "created"
  · simp [processReleaseEvent, ha]
  · rcases hf : s.releases.find? (releaseDedupe p.repository.full_name p.release.tag_name)
      with _ | ex
    · -- insert + backfill path
      have hout : processReleaseEvent s p fetched now
          = (fetchAndStorePRsForRelease
               { s with releases := s.releases ++ [releaseRowOf s p now] }
               (releaseRowOf s p now).id fetched now,
             ⟨"created", some (releaseRowOf s p now).id⟩) := by
        unfold processReleaseEvent
        rw [if_neg ha]
        simp only [hf]
      obtain ⟨hrel, -⟩ := fetchAndStorePRsForRelease_frame
        { s with releases := s.releases ++ [releaseRowOf s p now] }
        (releaseRowOf s p now).id fetched now
      have hf2 : (fetchAndStorePRsForRelease
            { s with releases := s.releases ++ [releaseRowOf s p now] }
            (releaseRowOf s p now).id fetched now).releases.find?
          (releaseDedupe p.repository.full_name p.release.tag_name)
          = some (releaseRowOf s p now) := by
        rw [hrel]
        show (s.releases ++ [releaseRowOf s p now]).find? _ = _
        rw [find?_append_none hf]
        simp [List.find?, releaseDedupe, releaseRowOf]
      have hmap : (fetchAndStorePRsForRelease
            { s with releases := s.releases ++ [releaseRowOf s p now] }
            (releaseRowOf s p now).id fetched now).releases.map
          (applyReleaseUpdate p now (releaseRowOf s p now).id)
          = (fetchAndStorePRsForRelease
            { s with releases := s.releases ++ [releaseRowOf s p now] }
            (releaseRowOf s p now).id fetched now).releases := by
        rw [hrel]
        show (s.releases ++ [releaseRowOf s p now]).map _
          = s.releases ++ [releaseRowOf s p now]
        rw [List.map_append]
        have hold : s.releases.map (applyReleaseUpdate p now (releaseRowOf s p now).id)
            = s.releases := by
          have hpt : ∀ r ∈ s.releases,
              applyReleaseUpdate p now (releaseRowOf s p now).id r = r := by
            intro r hr
            unfold applyReleaseUpdate
            rw [if_neg]
            have hle : r.id ≤ maxId (s.releases.map (fun q => q.id)) :=
              le_maxId (List.mem_map_of_mem (fun q => q.id) hr)
            show ¬(r.id = (releaseRowOf s p now).id)
            simp only [releaseRowOf, freshReleaseId]
            omega
          calc s.releases.map (applyReleaseUpdate p now (releaseRowOf s p now).id)
              = s.releases.map (fun r => r) := List.map_congr_left hpt
            _ = s.releases := by simp
        have hnew : applyReleaseUpdate p now (releaseRowOf s p now).id
            (releaseRowOf s p now) = releaseRowOf s p now := by
          simp [applyReleaseUpdate, releaseRowOf]
        rw [hold]
        simp [hnew]
      rw [hout]
      unfold processReleaseEvent
      rw [if_neg ha]
      simp only [hf2]
      show Store.mk _ _ _ _ = _
      rw [hmap]
    · -- update path
      have hout : processReleaseEvent s p fetched now
          = ({ s with releases := s.releases.map (applyReleaseUpdate p now ex.id) },
             ⟨"updated", some ex.id⟩) := by
        unfold processReleaseEvent
        rw [if_neg ha]
        simp only [hf]
      have hkey : ∀ r, releaseDedupe p.repository.full_name p.release.tag_name
          (applyReleaseUpdate p now ex.id r)
          = releaseDedupe p.repository.full_name p.release.tag_name r := by
        intro r
        obtain ⟨h1, h2, -⟩ := applyReleaseUpdate_key p now ex.id r
        simp [releaseDedupe, h1, h2]
      have hf2 : (s.releases.map (applyReleaseUpdate p now ex.id)).find?
          (releaseDedupe p.repository.full_name p.release.tag_name)
          = some (applyReleaseUpdate p now ex.id ex) := by
        rw [find?_map_key _ _ _ hkey, hf]
        rfl
      have hexid : (applyReleaseUpdate p now ex.id ex).id = ex.id :=
        (applyReleaseUpdate_key p now ex.id ex).2.2
      have hmm : (s.releases.map (applyReleaseUpdate p now ex.id)).map
            (applyReleaseUpdate p now ex.id)
          = s.releases.map (applyReleaseUpdate p now ex.id) := by
        rw [List.map_map]
        exact List.map_congr_left
          (fun r hr => applyReleaseUpdate_idem p now ex.id r)
      rw [hout]
      unfold processReleaseEvent
      rw [if_neg ha]
      simp only [hf2, hexid]
      show Store.mk _ _ _ _ = _
      rw [hmm]

/-- C1: ingestion is idempotent.  For every store state, clock value and
webhook payload of each of the three kinds (with the backfill data fetched
from the source-control collaborator held fixed), applying the corresponding
`IngestionEngine` operation twice yields exactly the same store contents —
same rows in the same order, hence same counts — as applying it once: no
duplicate release, pull-request or commit rows on re-delivery. -/
theorem c1_ingestion_idempotent (s : Store) (now : String) :
    (∀ (p : ReleaseEvent) (fetched : List BackfillEntry),
      (processReleaseEvent (processReleaseEvent s p fetched now).1 p fetched now).1
        = (processReleaseEvent s p fetched now).1)
    ∧ (∀ p : PREvent,
      (processPullRequestEvent (processPullRequestEvent s p now).1 p now).1
        = (processPullRequestEvent s p now).1)
    ∧ (∀ p : PushEvent,
      (processPushEvent (processPushEvent s p now).1 p now).1
        = (processPushEvent s p now).1) :=
  ⟨fun p fetched => processReleaseEvent_idem s p fetched now,
   fun p => processPullRequestEvent_idem s p now,
   fun p => processPushEvent_idem s p now⟩

/-! ## Dedupe-key uniqueness invariant (C6) -/

/-- The dedupe-key uniqueness invariant: no two release rows share a
`(repository, version)` pair, no two pull-request rows share a
`(pr_number, release_id)` pair, and no two commit rows share a hash. -/
def Inv (s : Store) : Prop :=
  s.releases.Pairwise (fun a b => ¬(a.repository = b.repository ∧ a.version = b.version))
  ∧ s.pullRequests.Pairwise (fun a b => ¬(a.prNumber = b.prNumber ∧ a.releaseId = b.releaseId))
  ∧ s.commits.Pairwise (fun a b => a.hash ≠ b.hash)

/-- The PR-insert procedure preserves the invariant: it inserts only when the
`(pr_number, release_id)` pair is absent. -/
theorem storePullRequest_inv (s : Store) (rid : Nat) (pr : PRPayload) (now : String)
    (h : Inv s) : Inv (storePullRequest s rid pr now).1 := by
  unfold storePullRequest
  rcases hx : s.pullRequests.find? (prDedupe rid pr.number) with _ | row
  · obtain ⟨h1, h2, h3⟩ := h
    refine ⟨h1, ?_, h3⟩
    rw [List.pairwise_append]
    refine ⟨h2, by simp, ?_⟩
    intro a ha b hb
    simp only [List.mem_singleton] at hb
    subst hb
    rintro ⟨hn, hr⟩
    rw [List.find?_eq_none] at hx
    apply hx a ha
    simp only [prDedupe, decide_eq_true_eq]
    exact ⟨by simpa [prRowOf] using hn, by simpa [prRowOf] using hr⟩
  · exact h

/-- The backfill commit insert preserves the invariant (hash dedupe). -/
theorem insertPRCommit_inv (rid pid : Nat) (now : String) (s : Store)
    (c : FetchedCommit) (h : Inv s) : Inv (insertPRCommit rid pid now s c) := by
  unfold insertPRCommit
  split
  · exact h
  · rename_i hmiss
    obtain ⟨h1, h2, h3⟩ := h
    refine ⟨h1, h2, ?_⟩
    rw [List.pairwise_append]
    refine ⟨h3, by simp, ?_⟩
    intro a ha b hb
    simp only [List.mem_singleton] at hb
    subst hb
    intro he
    apply hmiss
    rw [List.find?_isSome]
    refine ⟨a, ha, ?_⟩
    simp only [decide_eq_true_eq]
    simpa using he

/-- `fetchAndStoreCommitsForPR` preserves the invariant. -/
theorem fetchAndStoreCommitsForPR_inv (s : Store) (rid n : Nat)
    (cs : List FetchedCommit) (now : String) (h : Inv s) :
    Inv (fetchAndStoreCommitsForPR s rid n cs now) := by
  unfold fetchAndStoreCommitsForPR
  split
  · exact h
  · rename_i prRow hpr
    exact foldl_preserves (P := Inv)
      (fun t c ht => insertPRCommit_inv rid prRow.id now t c ht) cs s h

/-- Backfill preserves the invariant. -/
theorem fetchAndStorePRsForRelease_inv (s : Store) (rid : Nat)
    (fetched : List BackfillEntry) (now : String) (h : Inv s) :
    Inv (fetchAndStorePRsForRelease s rid fetched now) := by
  unfold fetchAndStorePRsForRelease
  exact foldl_preserves (P := Inv)
    (fun t e ht => fetchAndStoreCommitsForPR_inv _ rid e.pr.number e.commits now
      (storePullRequest_inv t rid e.pr now ht))
    fetched s h

/-- `processReleaseEvent` preserves the invariant. -/
theorem processReleaseEvent_inv (s : Store) (p : ReleaseEvent)
    (fetched : List BackfillEntry) (now : String) (h : Inv s) :
    Inv (processReleaseEvent s p fetched now).1 := by
  unfold processReleaseEvent
  split
  · exact h
  · split
    · -- update path: the in-place update does not touch the key columns
      rename_i ex hf
      obtain ⟨h1, h2, h3⟩ := h
      refine ⟨?_, h2, h3⟩
      rw [List.pairwise_map]
      apply h1.imp
      intro a b hab
      obtain ⟨a1, a2, -⟩ := applyReleaseUpdate_key p now ex.id a
      obtain ⟨b1, b2, -⟩ := applyReleaseUpdate_key p now ex.id b
      rw [a1, a2, b1, b2]
      exact hab
    · -- insert path: guarded by the (repository, version) lookup, then backfill
      rename_i hf
      apply fetchAndStorePRsForRelease_inv
      obtain ⟨h1, h2, h3⟩ := h
      refine ⟨?_, h2, h3⟩
      rw [List.pairwise_append]
      refine ⟨h1, by simp, ?_⟩
      intro a ha b hb
      simp only [List.mem_singleton] at hb
      subst hb
      rintro ⟨hrepo, hver⟩
      rw [List.find?_eq_none] at hf
      apply hf a ha
      simp only [releaseDedupe, decide_eq_true_eq]
      exact ⟨by simpa [releaseRowOf] using hrepo, by simpa [releaseRowOf] using hver⟩

/-- `processPullRequestEvent` preserves the invariant. -/
theorem processPullRequestEvent_inv (s : Store) (p : PREvent) (now : String)
    (h : Inv s) : Inv (processPullRequestEvent s p now).1 := by
  unfold processPullRequestEvent
  split
  · exact h
  · split
    · -- draft path: no release for the repository exists at all
      rename_i hf
      apply storePullRequest_inv
      obtain ⟨h1, h2, h3⟩ := h
      refine ⟨?_, h2, h3⟩
      rw [List.pairwise_append]
      refine ⟨h1, by simp, ?_⟩
      intro a ha b hb
      simp only [List.mem_singleton] at hb
      subst hb
      rintro ⟨hrepo, -⟩
      rw [List.find?_eq_none] at hf
      apply hf a ha
      simp only [decide_eq_true_eq]
      simpa [draftReleaseRow] using hrepo
    · rename_i r hf
      exact storePullRequest_inv s r.id p.pull_request now h

/-- A single push-commit step preserves the invariant (hash dedupe). -/
theorem processOneCommit_inv (rid : Nat) (now : String) (acc : Store × Nat)
    (c : PushCommit) (h : Inv acc.1) : Inv (processOneCommit rid now acc c).1 := by
  simp only [processOneCommit]
  split
  · exact h
  · split
    · exact h
    · rename_i hmiss
      obtain ⟨h1, h2, h3⟩ := h
      refine ⟨h1, h2, ?_⟩
      rw [List.pairwise_append]
      refine ⟨h3, by simp, ?_⟩
      intro a ha b hb
      simp only [List.mem_singleton] at hb
      subst hb
      intro he
      apply hmiss
      rw [List.find?_isSome]
      refine ⟨a, ha, ?_⟩
      simp only [decide_eq_true_eq]
      simpa [pushCommitRowOf] using he

/-- `processPushEvent` preserves the invariant. -/
theorem processPushEvent_inv (s : Store) (p : PushEvent) (now : String)
    (h : Inv s) : Inv (processPushEvent s p now).1 := by
  unfold processPushEvent
  split
  · exact h
  · split
    · exact h
    · rename_i r hf
      exact foldl_preserves (P := fun acc : Store × Nat => Inv acc.1)
        (fun acc c hac => processOneCommit_inv r.id now acc c hac) p.commits (s, 0) h

/-- The store states reachable by the three ingestion operations, starting
from empty data tables over an arbitrary pre-seeded category table. -/
inductive Reachable (cats : List CategoryRow) : Store → Prop where
  | init : Reachable cats ⟨[], [], [], cats⟩
  | release {s : Store} (p : ReleaseEvent) (fetched : List BackfillEntry) (now : String) :
      Reachable cats s → Reachable cats (processReleaseEvent s p fetched now).1
  | pullRequest {s : Store} (p : PREvent) (now : String) :
      Reachable cats s → Reachable cats (processPullRequestEvent s p now).1
  | push {s : Store} (p : PushEvent) (now : String) :
      Reachable cats s → Reachable cats (processPushEvent s p now).1

/-- C6: in every store state reachable by the ingestion operations, no two
release rows share a `(repository, version)` pair, no two pull-request rows
share a `(pr_number, release_id)` pair, and no two commit rows share a hash. -/
theorem c6_dedupe_key_uniqueness (cats : List CategoryRow) (s : Store)
    (h : Reachable cats s) : Inv s := by
  induction h with
  | init => exact ⟨List.Pairwise.nil, List.Pairwise.nil, List.Pairwise.nil⟩
  | release p fetched now _ ih => exact processReleaseEvent_inv _ p fetched now ih
  | pullRequest p now _ ih => exact processPullRequestEvent_inv _ p now ih
  | push p now _ ih => exact processPushEvent_inv _ p now ih

/-- Witness for C6: the invariant holds at the concrete state reached from
the empty store by ingesting the merged-PR event `p7`. -/
theorem c6_dedupe_key_uniqueness_witness :
    Inv (processPullRequestEvent ⟨[], [], [], []⟩ p7 ("T0")).1 :=
  c6_dedupe_key_uniqueness [] _ (Reachable.pullRequest p7 ("T0") Reachable.init)

end GooseRelease
